import Mathlib

/-!
Shallow embedding of the observation-tracking and acquisition-scoring core of
the meta-learn TPE optimizer:
  src/optimizers/tpe/optimizer/models/base_tpe.py  (class BaseTPE)
  src/optimizers/tpe/optimizer/models/tpe.py       (class TPE)
Hyperparameter, objective and runtime values are modelled as rationals,
columns as total maps from names to value lists.  Python exceptions raised by
the mutators are modelled by returning the post-call state together with an
optional error value.
-/

namespace MetaLearnTPE

/-- Index comparison underlying the model of `np.argsort` on a value array:
indices ordered by value, the index itself breaking ties.  (`TPE._calculate_order`
calls `np.argsort` with its default sort kind; the model fixes a deterministic
tie order so that the embedding is a function.) -/
def argsortRel (xs : List ℚ) (i j : ℕ) : Prop :=
  xs.getD i 0 < xs.getD j 0 ∨ (xs.getD i 0 = xs.getD j 0 ∧ i ≤ j)

instance (xs : List ℚ) : DecidableRel (argsortRel xs) := fun i j => by
  unfold argsortRel; infer_instance

/-- Model of `np.argsort(loss_vals)` (tpe.py line 46): the permutation of
`0, ..., n-1` listing the indices of `xs` in ascending order of value. -/
def argsort (xs : List ℚ) : List ℕ :=
  List.insertionSort (argsortRel xs) (List.range xs.length)

/-- numpy integer-array indexing `xs[order]`, as used to build the sorted
views (base_tpe.py lines 122, 148, 153). -/
def permute (xs : List ℚ) (order : List ℕ) : List ℚ :=
  order.map (fun i => xs.getD i 0)

/-- Python slice `xs[:k]` for an `int` bound `k` (a negative bound counts from
the end of the list). -/
def pySliceTo (xs : List ℚ) (k : ℤ) : List ℚ :=
  xs.take (if 0 ≤ k then k.toNat else ((xs.length : ℤ) + k).toNat)

/-- Python slice `xs[k:]` for an `int` bound `k`. -/
def pySliceFrom (xs : List ℚ) (k : ℤ) : List ℚ :=
  xs.drop (if 0 ≤ k then k.toNat else ((xs.length : ℤ) + k).toNat)

/-- The argument record of one call to the external density-model collaborator
(`build_categorical_parzen_estimator` / `build_numerical_parzen_estimator`,
base_tpe.py lines 270-280).  `hpName` stands for the `config` object — the
dimension together with its domain — that both builders receive unchanged. -/
inductive ParzenCall where
  | categorical (vals : List ℚ) (hpName : String) (top : ℚ)
  | numerical (vals : List ℚ) (hpName : String) (isOrdinal : Bool) (minBandwidthFactor : ℚ)
deriving DecidableEq

/-- The raw value array passed to the collaborator in a recorded call. -/
def ParzenCall.vals : ParzenCall → List ℚ
  | .categorical v _ _ => v
  | .numerical v _ _ _ => v

/-- State of one `TPE` optimizer instance (the concrete subclass of `BaseTPE`
in src):  the column store `obs`, the sorted view `sortedObs`, the current
split (`nLower`, `percentile`), the recorded estimator constructions, the
constructor parameters, and an abstract token `rng` for the instance's
`np.random.RandomState`.  Map entries at keys outside `hpNames`,
`objectiveNames` and `runtimeName` are unused. -/
structure TPEState where
  hpNames : List String
  objectiveNames : List String
  runtimeName : String
  quantile : ℚ
  nEiCandidates : ℕ
  minBandwidthFactor : ℚ
  top : ℚ
  isCategoricals : String → Bool
  isOrdinals : String → Bool
  obs : String → List ℚ
  sortedObs : String → List ℚ
  nLower : ℤ
  percentile : ℚ
  mvpeLower : List (String × ParzenCall)
  mvpeUpper : List (String × ParzenCall)
  rng : ℕ

/-- `self._objective_names[0]` (base_tpe.py lines 124, 156, 286), which for
the `TPE` subclass coincides with `self._objective_name` (tpe.py line 33). -/
def TPEState.primaryObjective (s : TPEState) : String :=
  s.objectiveNames.headD ""

/-- `TPE.__init__` through `BaseTPE.__init__` (base_tpe.py lines 44-102, tpe.py
lines 11-34): every dimension, objective and runtime column empty, `n_lower = 0`,
`percentile = 0.0`, and the seed installed in the instance generator.  The two
estimator fields are only declared, not assigned, in the constructor; the model
holds an empty record list until the first rebuild. -/
def TPEState.init (hpNames : List String) (objectiveName runtimeName : String)
    (quantile : ℚ) (nEiCandidates : ℕ) (minBandwidthFactor top : ℚ)
    (isCategoricals isOrdinals : String → Bool) (seed : ℕ) : TPEState :=
  { hpNames := hpNames
    objectiveNames := [objectiveName]
    runtimeName := runtimeName
    quantile := quantile
    nEiCandidates := nEiCandidates
    minBandwidthFactor := minBandwidthFactor
    top := top
    isCategoricals := isCategoricals
    isOrdinals := isOrdinals
    obs := fun _ => []
    sortedObs := fun _ => []
    nLower := 0
    percentile := 0
    mvpeLower := []
    mvpeUpper := []
    rng := seed }

/-- `TPE._percentile_func` (tpe.py lines 36-38):
`int(np.ceil(self._quantile * n_observations))`. -/
def percentileFunc (quantile : ℚ) (nObservations : ℕ) : ℤ :=
  ⌈quantile * (nObservations : ℚ)⌉

/-- `TPE._calculate_order` (tpe.py lines 40-47): argsort of the primary
objective column, with the candidate's objective value hypothetically appended
on the `update_observations` path (`results` models the mapping the code reads
as `results[0]`). -/
def calculateOrder (s : TPEState) (results : Option (String → ℚ)) : List ℕ :=
  match results with
  | none => argsort (s.obs s.primaryObjective)
  | some r => argsort (s.obs s.primaryObjective ++ [r s.primaryObjective])

/-- One iteration of the per-column loops in `BaseTPE.update_observations`
(base_tpe.py lines 145-153): append the new value to the stored column, then
recompute that column's sorted view from the freshly appended column. -/
def appendAndSort (order : List ℕ) (vals : String → ℚ)
    (maps : (String → List ℚ) × (String → List ℚ)) (name : String) :
    (String → List ℚ) × (String → List ℚ) :=
  let newCol := maps.1 name ++ [vals name]
  (Function.update maps.1 name newCol,
   Function.update maps.2 name (permute newCol order))

/-- `BaseTPE._get_parzen_estimator` (base_tpe.py lines 242-282): dispatch one
dimension's two groups to the external collaborator — categorical mode passes
the value arrays and `top`; numerical/ordinal mode passes the value arrays,
the ordinal flag and the minimum-bandwidth floor.  The result records the
arguments of the lower-group and upper-group calls. -/
def getParzenEstimator (s : TPEState) (lowerVals upperVals : List ℚ)
    (hpName : String) (isCategorical : Bool) : ParzenCall × ParzenCall :=
  if isCategorical then
    (.categorical lowerVals hpName s.top, .categorical upperVals hpName s.top)
  else
    (.numerical lowerVals hpName (s.isOrdinals hpName) s.minBandwidthFactor,
     .numerical upperVals hpName (s.isOrdinals hpName) s.minBandwidthFactor)

/-- `BaseTPE._update_parzen_estimators` (base_tpe.py lines 160-180): for each
dimension split its sorted values at `n_lower` into `sorted[:n_lower]` and
`sorted[n_lower:]` and build the per-group estimators, collecting the two
per-dimension dictionaries handed to `MultiVariateParzenEstimator`. -/
def updateParzenEstimators (s : TPEState) :
    List (String × ParzenCall) × List (String × ParzenCall) :=
  let entries := s.hpNames.map (fun hpName =>
    let sortedVals := s.sortedObs hpName
    (hpName, getParzenEstimator s (pySliceTo sortedVals s.nLower)
      (pySliceFrom sortedVals s.nLower) hpName (s.isCategoricals hpName)))
  (entries.map (fun e => (e.1, e.2.1)), entries.map (fun e => (e.1, e.2.2)))

/-- `BaseTPE.update_observations` (base_tpe.py lines 128-158) for the `TPE`
subclass: compute the ranking with the candidate appended, append and re-sort
every objective column and then every dimension column, recompute `n_lower` and
`percentile` from the new count, rebuild the estimators, and only then append
the runtime to the stored runtime column (its sorted view is not touched). -/
def updateObservations (s : TPEState) (evalConfig results : String → ℚ)
    (runtime : ℚ) : TPEState :=
  let order := calculateOrder s (some results)
  let maps1 := s.objectiveNames.foldl (appendAndSort order results) (s.obs, s.sortedObs)
  let maps2 := s.hpNames.foldl (appendAndSort order evalConfig) maps1
  let nObs := (maps2.1 s.primaryObjective).length
  let nLower := percentileFunc s.quantile nObs
  let s1 := { s with obs := maps2.1, sortedObs := maps2.2,
                     nLower := nLower, percentile := (nLower : ℚ) / (nObs : ℚ) }
  let mvpe := updateParzenEstimators s1
  { s1 with mvpeLower := mvpe.1, mvpeUpper := mvpe.2,
            obs := Function.update s1.obs s.runtimeName (s1.obs s.runtimeName ++ [runtime]) }

/-- The exceptions that `BaseTPE.apply_knowledge_augmentation` can raise:
the two `ValueError` preconditions (base_tpe.py lines 115-118) and the
`ZeroDivisionError` at line 125 when `n_observations == 0`. -/
inductive AugError where
  | alreadyHasData
  | missingObjective
  | divisionByZero
deriving DecidableEq

/-- `BaseTPE.apply_knowledge_augmentation` (base_tpe.py lines 112-126) for the
`TPE` subclass, returning the post-call state together with the raised error,
if any.  The two precondition checks run before any mutation; the division by
`n_observations` at line 125 runs after the store, the sorted view and
`n_lower` have already been assigned, so that error leaves those mutations in
place, exactly as the exception does in the source. -/
def applyKnowledgeAugmentation (s : TPEState) (input : List (String × List ℚ)) :
    TPEState × Option AugError :=
  if s.objectiveNames.any (fun name => !(s.obs name).isEmpty) then
    (s, some .alreadyHasData)
  else if s.objectiveNames.any (fun name => !(input.map Prod.fst).contains name) then
    (s, some .missingObjective)
  else
    let obs1 := input.foldl
      (fun (m : String → List ℚ) (e : String × List ℚ) => Function.update m e.1 e.2) s.obs
    let order := calculateOrder { s with obs := obs1 } none
    let sorted1 := input.foldl
      (fun (m : String → List ℚ) (e : String × List ℚ) =>
        Function.update m e.1 (permute e.2 order)) s.sortedObs
    let nLower := percentileFunc s.quantile ((obs1 s.primaryObjective).length)
    let nObs := (obs1 s.primaryObjective).length
    if nObs = 0 then
      ({ s with obs := obs1, sortedObs := sorted1, nLower := nLower }, some .divisionByZero)
    else
      let s1 := { s with obs := obs1, sortedObs := sorted1, nLower := nLower,
                         percentile := (nLower : ℚ) / (nObs : ℚ) }
      let mvpe := updateParzenEstimators s1
      ({ s1 with mvpeLower := mvpe.1, mvpeUpper := mvpe.2 }, none)

/-- The external density-model collaborator seen through the two operations
the core uses on a `MultiVariateParzenEstimator`: `sample` (a deterministic
function of the estimator record, the sample count and the generator state,
returning the drawn per-dimension candidate arrays and the advanced generator
state) and `log_pdf` (the joint log-likelihoods of a candidate batch). -/
structure Collaborator where
  sample : List (String × ParzenCall) → ℕ → ℕ → List (String × List ℚ) × ℕ
  logPdf : List (String × ParzenCall) → List (String × List ℚ) → List ℚ

/-- `BaseTPE.get_config_candidates` (base_tpe.py lines 182-193):
`self._mvpe_lower.sample(n_samples=self._n_ei_candidates, rng=self._rng, ...)`,
advancing the instance's own generator. -/
def getConfigCandidates (c : Collaborator) (s : TPEState) :
    List (String × List ℚ) × TPEState :=
  let out := c.sample s.mvpeLower s.nEiCandidates s.rng
  (out.1, { s with rng := out.2 })

/-- `EPS` in `BaseTPE.compute_probability_improvement` (base_tpe.py line 235). -/
def EPS : ℝ := 1e-12

/-- `np.logaddexp`, modelled the way numpy evaluates it: the larger argument
plus `log1p` of the exponential of the difference, where only a non-positive
quantity is ever exponentiated — this is what keeps the source's score finite
when `ll_upper - ll_lower` is large. -/
noncomputable def logaddexp (x y : ℝ) : ℝ :=
  max x y + Real.log (1 + Real.exp (-|x - y|))

/-- The per-candidate score of `BaseTPE.compute_probability_improvement`
(base_tpe.py lines 235-239):
`-logaddexp(log(percentile + EPS), log(1 - percentile + EPS) + ll_upper - ll_lower)`. -/
noncomputable def probabilityImprovement (percentile llLower llUpper : ℝ) : ℝ :=
  -(logaddexp (Real.log (percentile + EPS))
      (Real.log (1 - percentile + EPS) + llUpper - llLower))

/-- `BaseTPE.compute_probability_improvement` on a candidate batch
(base_tpe.py lines 195-240), the two log-likelihood arrays coming from the
collaborator's `log_pdf` on the lower and upper estimators. -/
noncomputable def computeProbabilityImprovement (c : Collaborator) (s : TPEState)
    (configCands : List (String × List ℚ)) : List ℝ :=
  let cllLower := c.logPdf s.mvpeLower configCands
  let cllUpper := c.logPdf s.mvpeUpper configCands
  List.zipWith (fun lo hi => probabilityImprovement s.percentile (lo : ℝ) (hi : ℝ))
    cllLower cllUpper

/-- One driver call against an optimizer instance: bulk seeding, one
observation append, or one candidate draw (the drawn batch is scored
immediately, so a trace records both outputs of `get_config_candidates` and
`compute_probability_improvement`). -/
inductive Op where
  | seed (input : List (String × List ℚ))
  | append (evalConfig results : String → ℚ) (runtime : ℚ)
  | candidates

/-- Execute one driver call, returning the next state and the emitted
candidate batch and scores (empty for the two mutators). -/
noncomputable def runOp (c : Collaborator) (s : TPEState) :
    Op → TPEState × (List (String × List ℚ) × List ℝ)
  | .seed input => ((applyKnowledgeAugmentation s input).1, ([], []))
  | .append evalConfig results runtime =>
      (updateObservations s evalConfig results runtime, ([], []))
  | .candidates =>
      let out := getConfigCandidates c s
      (out.2, (out.1, computeProbabilityImprovement c out.2 out.1))

/-- Replay a sequence of driver calls, collecting the emitted candidate
batches and scores in order. -/
noncomputable def runOps (c : Collaborator) (s : TPEState) :
    List Op → TPEState × List (List (String × List ℚ) × List ℝ)
  | [] => (s, [])
  | op :: rest =>
      let step := runOp c s op
      let cont := runOps c step.1 rest
      (cont.1, step.2 :: cont.2)

/-- A concrete single-dimension instance (numerical dimension `x`, objective
`loss`, runtime column `runtime`, quantile 1/10, seed 0) used to evaluate the
theorems on explicit inputs. -/
def sampleState : TPEState :=
  TPEState.init ["x"] "loss" "runtime" ⟨1, 10, by decide, by decide⟩ 5
    ⟨1, 100, by decide, by decide⟩ ⟨4, 5, by decide, by decide⟩
    (fun _ => false) (fun _ => false) 0

/-- The sample instance after a first successful seeding with four
observations, used to check that a second seed call is rejected without
side effects. -/
def seededState : TPEState :=
  (applyKnowledgeAugmentation sampleState
    [("x", [1, 2, 3, 4]), ("loss", [5, 3, 8, 1]), ("runtime", [1, 1, 1, 1])]).1

/-- A concrete collaborator whose sampling returns an empty batch and leaves
the generator unchanged, used to evaluate the replay theorem. -/
def trivialCollaborator : Collaborator :=
  { sample := fun _ _ r => ([], r), logPdf := fun _ _ => [] }

/-! Helper lemmas about the embedding. -/

theorem permute_length (xs : List ℚ) (order : List ℕ) :
    (permute xs order).length = order.length :=
  List.length_map _ _

theorem argsort_perm (xs : List ℚ) :
    List.Perm (argsort xs) (List.range xs.length) :=
  List.perm_insertionSort _ _

theorem argsort_length (xs : List ℚ) : (argsort xs).length = xs.length := by
  rw [(argsort_perm xs).length_eq, List.length_range]

theorem headD_mem (l : List String) (h : l ≠ []) : l.headD "" ∈ l := by
  cases l with
  | nil => exact absurd rfl h
  | cons a t => exact List.mem_cons_self a t

/-- Pointwise effect of the per-column append loop of `update_observations`
on a list of pairwise distinct column names. -/
theorem foldl_appendAndSort_apply (order : List ℕ) (vals : String → ℚ)
    (l : List String) (hl : l.Nodup)
    (p : (String → List ℚ) × (String → List ℚ)) (k : String) :
    (l.foldl (appendAndSort order vals) p).1 k =
      (if k ∈ l then p.1 k ++ [vals k] else p.1 k) ∧
    (l.foldl (appendAndSort order vals) p).2 k =
      (if k ∈ l then permute (p.1 k ++ [vals k]) order else p.2 k) := by
  induction l generalizing p with
  | nil => simp
  | cons a t ih =>
    obtain ⟨ha, ht⟩ := List.nodup_cons.mp hl
    have step : appendAndSort order vals p a =
        (Function.update p.1 a (p.1 a ++ [vals a]),
         Function.update p.2 a (permute (p.1 a ++ [vals a]) order)) := rfl
    rw [List.foldl_cons, step]
    obtain ⟨h1, h2⟩ := ih ht (Function.update p.1 a (p.1 a ++ [vals a]),
      Function.update p.2 a (permute (p.1 a ++ [vals a]) order))
    rw [h1, h2]
    by_cases hk : k ∈ t
    · have hne : k ≠ a := fun h => ha (h ▸ hk)
      simp [hk, hne, Function.update_noteq hne, List.mem_cons]
    · by_cases hka : k = a
      · subst hka
        simp [hk, Function.update_same]
      · simp [hk, hka, Function.update_noteq hka]

/-- Consequences of the pairwise distinctness of the column keys. -/
theorem keyFacts (s : TPEState)
    (hkeys : (s.objectiveNames ++ s.hpNames ++ [s.runtimeName]).Nodup) :
    s.objectiveNames.Nodup ∧ s.hpNames.Nodup ∧
    s.objectiveNames.Disjoint s.hpNames ∧
    s.runtimeName ∉ s.objectiveNames ∧ s.runtimeName ∉ s.hpNames := by
  obtain ⟨hABn, _, hdisr⟩ := List.nodup_append.mp hkeys
  obtain ⟨hA, hB, hABd⟩ := List.nodup_append.mp hABn
  refine ⟨hA, hB, hABd, ?_, ?_⟩
  · exact fun h => hdisr (List.mem_append_left _ h) (List.mem_singleton.mpr rfl)
  · exact fun h => hdisr (List.mem_append_right _ h) (List.mem_singleton.mpr rfl)

/-- What `update_observations` leaves in each stored column. -/
theorem updateObservations_obs_apply (s : TPEState) (evalConfig results : String → ℚ)
    (runtime : ℚ)
    (hkeys : (s.objectiveNames ++ s.hpNames ++ [s.runtimeName]).Nodup) (k : String) :
    (updateObservations s evalConfig results runtime).obs k =
      if k = s.runtimeName then s.obs k ++ [runtime]
      else if k ∈ s.objectiveNames then s.obs k ++ [results k]
      else if k ∈ s.hpNames then s.obs k ++ [evalConfig k]
      else s.obs k := by
  obtain ⟨hA, hB, hABd, hrA, hrB⟩ := keyFacts s hkeys
  simp only [updateObservations]
  rw [Function.update_apply,
    (foldl_appendAndSort_apply (calculateOrder s (some results)) evalConfig
      s.hpNames hB _ k).1,
    (foldl_appendAndSort_apply (calculateOrder s (some results)) results
      s.objectiveNames hA (s.obs, s.sortedObs) k).1,
    (foldl_appendAndSort_apply (calculateOrder s (some results)) evalConfig
      s.hpNames hB _ s.runtimeName).1,
    (foldl_appendAndSort_apply (calculateOrder s (some results)) results
      s.objectiveNames hA (s.obs, s.sortedObs) s.runtimeName).1]
  by_cases hkr : k = s.runtimeName
  · subst hkr
    simp [hrA, hrB]
  · simp only [if_neg hkr]
    by_cases hko : k ∈ s.objectiveNames
    · have hkh : k ∉ s.hpNames := fun h => hABd hko h
      simp [hko, hkh, hrA, hrB]
    · by_cases hkh : k ∈ s.hpNames
      · simp [hko, hkh, hrA, hrB]
      · simp [hko, hkh, hrA, hrB]

/-- What `update_observations` leaves in each sorted-view column: only the
objective and dimension columns are refreshed against the new ranking; the
sorted runtime column is untouched (line 158 appends the runtime to the store
only). -/
theorem updateObservations_sortedObs_apply (s : TPEState)
    (evalConfig results : String → ℚ) (runtime : ℚ)
    (hkeys : (s.objectiveNames ++ s.hpNames ++ [s.runtimeName]).Nodup) (k : String) :
    (updateObservations s evalConfig results runtime).sortedObs k =
      if k ∈ s.objectiveNames then
        permute (s.obs k ++ [results k]) (calculateOrder s (some results))
      else if k ∈ s.hpNames then
        permute (s.obs k ++ [evalConfig k]) (calculateOrder s (some results))
      else s.sortedObs k := by
  obtain ⟨hA, hB, hABd, hrA, hrB⟩ := keyFacts s hkeys
  simp only [updateObservations]
  rw [(foldl_appendAndSort_apply (calculateOrder s (some results)) evalConfig
      s.hpNames hB _ k).2,
    (foldl_appendAndSort_apply (calculateOrder s (some results)) results
      s.objectiveNames hA (s.obs, s.sortedObs) k).1,
    (foldl_appendAndSort_apply (calculateOrder s (some results)) results
      s.objectiveNames hA (s.obs, s.sortedObs) k).2]
  by_cases hko : k ∈ s.objectiveNames
  · have hkh : k ∉ s.hpNames := fun h => hABd hko h
    simp [hko, hkh]
  · by_cases hkh : k ∈ s.hpNames
    · simp [hko, hkh]
    · simp [hko, hkh]

/-- The split recomputed by `update_observations`: `n_lower` and `percentile`
come from the percentile function at the post-append observation count. -/
theorem updateObservations_split (s : TPEState) (evalConfig results : String → ℚ)
    (runtime : ℚ)
    (hkeys : (s.objectiveNames ++ s.hpNames ++ [s.runtimeName]).Nodup)
    (hobj : s.objectiveNames ≠ []) :
    (updateObservations s evalConfig results runtime).nLower =
      percentileFunc s.quantile ((s.obs s.primaryObjective).length + 1) ∧
    (updateObservations s evalConfig results runtime).percentile =
      (((updateObservations s evalConfig results runtime).nLower : ℚ)) /
        ((((s.obs s.primaryObjective).length + 1 : ℕ) : ℚ)) := by
  obtain ⟨hA, hB, hABd, hrA, hrB⟩ := keyFacts s hkeys
  have hmem : s.primaryObjective ∈ s.objectiveNames := headD_mem _ hobj
  have hnh : s.primaryObjective ∉ s.hpNames := fun h => hABd hmem h
  simp only [updateObservations]
  rw [(foldl_appendAndSort_apply (calculateOrder s (some results)) evalConfig
      s.hpNames hB _ s.primaryObjective).1,
    (foldl_appendAndSort_apply (calculateOrder s (some results)) results
      s.objectiveNames hA (s.obs, s.sortedObs) s.primaryObjective).1]
  simp [hmem, hnh]

/-- A key absent from the seeding input keeps its store column. -/
theorem foldl_update_raw_not_mem (l : List (String × List ℚ))
    (m : String → List ℚ) (k : String) (hk : k ∉ l.map Prod.fst) :
    (l.foldl (fun (acc : String → List ℚ) (e : String × List ℚ) =>
      Function.update acc e.1 e.2) m) k = m k := by
  induction l generalizing m with
  | nil => rfl
  | cons e t ih =>
    simp only [List.map_cons, List.mem_cons, not_or] at hk
    rw [List.foldl_cons, ih _ hk.2, Function.update_noteq hk.1]

/-- A key present in the seeding input gets exactly its supplied column. -/
theorem foldl_update_raw_mem (l : List (String × List ℚ))
    (hl : (l.map Prod.fst).Nodup) (m : String → List ℚ) (k : String)
    (v : List ℚ) (hkv : (k, v) ∈ l) :
    (l.foldl (fun (acc : String → List ℚ) (e : String × List ℚ) =>
      Function.update acc e.1 e.2) m) k = v := by
  induction l generalizing m with
  | nil => exact absurd hkv (List.not_mem_nil _)
  | cons e t ih =>
    rw [List.map_cons] at hl
    obtain ⟨he, ht⟩ := List.nodup_cons.mp hl
    rcases List.mem_cons.mp hkv with hkv' | hkv'
    · have hk1 : k = e.1 := congrArg Prod.fst hkv'
      have hknot : k ∉ t.map Prod.fst := hk1 ▸ he
      rw [List.foldl_cons, foldl_update_raw_not_mem t _ k hknot, hk1,
        Function.update_same]
      exact (congrArg Prod.snd hkv').symm
    · exact List.foldl_cons _ _ ▸ ih ht _ hkv'

/-- The length of a seeded column when every supplied column has length `n`. -/
theorem foldl_update_raw_length (l : List (String × List ℚ))
    (m : String → List ℚ) (k : String) (n : ℕ) (hk : k ∈ l.map Prod.fst)
    (hlen : ∀ kv ∈ l, kv.2.length = n) :
    ((l.foldl (fun (acc : String → List ℚ) (e : String × List ℚ) =>
      Function.update acc e.1 e.2) m) k).length = n := by
  induction l generalizing m with
  | nil => exact absurd hk (List.not_mem_nil _)
  | cons e t ih =>
    rw [List.map_cons] at hk
    by_cases hkt : k ∈ t.map Prod.fst
    · exact List.foldl_cons _ _ ▸ ih _ hkt (fun kv hkv => hlen kv (List.mem_cons_of_mem _ hkv))
    · have hk1 : k = e.1 := by
        rcases List.mem_cons.mp hk with h | h
        · exact h
        · exact absurd h hkt
      rw [List.foldl_cons, foldl_update_raw_not_mem t _ k hkt, hk1,
        Function.update_same]
      exact hlen e (List.mem_cons_self _ _)

/-- A key absent from the seeding input keeps its sorted-view column. -/
theorem foldl_update_perm_not_mem (order : List ℕ) (l : List (String × List ℚ))
    (m : String → List ℚ) (k : String) (hk : k ∉ l.map Prod.fst) :
    (l.foldl (fun (acc : String → List ℚ) (e : String × List ℚ) =>
      Function.update acc e.1 (permute e.2 order)) m) k = m k := by
  induction l generalizing m with
  | nil => rfl
  | cons e t ih =>
    simp only [List.map_cons, List.mem_cons, not_or] at hk
    rw [List.foldl_cons, ih _ hk.2, Function.update_noteq hk.1]

/-- A key present in the seeding input gets its supplied column reordered by
the ranking. -/
theorem foldl_update_perm_mem (order : List ℕ) (l : List (String × List ℚ))
    (hl : (l.map Prod.fst).Nodup) (m : String → List ℚ) (k : String)
    (v : List ℚ) (hkv : (k, v) ∈ l) :
    (l.foldl (fun (acc : String → List ℚ) (e : String × List ℚ) =>
      Function.update acc e.1 (permute e.2 order)) m) k = permute v order := by
  induction l generalizing m with
  | nil => exact absurd hkv (List.not_mem_nil _)
  | cons e t ih =>
    rw [List.map_cons] at hl
    obtain ⟨he, ht⟩ := List.nodup_cons.mp hl
    rcases List.mem_cons.mp hkv with hkv' | hkv'
    · have hk1 : k = e.1 := congrArg Prod.fst hkv'
      have hknot : k ∉ t.map Prod.fst := hk1 ▸ he
      rw [List.foldl_cons, foldl_update_perm_not_mem order t _ k hknot, hk1,
        Function.update_same]
      exact congrArg (fun v => permute v order) (congrArg Prod.snd hkv').symm
    · exact List.foldl_cons _ _ ▸ ih ht _ hkv'

/-- The first precondition check of `apply_knowledge_augmentation` as a
proposition. -/
theorem any_nonempty_iff (s : TPEState) :
    (s.objectiveNames.any fun name => !(s.obs name).isEmpty) = true ↔
      ∃ obj ∈ s.objectiveNames, s.obs obj ≠ [] := by
  simp [List.any_eq_true, List.isEmpty_iff]

/-- The second precondition check of `apply_knowledge_augmentation` as a
proposition. -/
theorem any_missing_iff (s : TPEState) (input : List (String × List ℚ)) :
    (s.objectiveNames.any fun name => !(input.map Prod.fst).contains name) = true ↔
      ∃ obj ∈ s.objectiveNames, obj ∉ input.map Prod.fst := by
  simp [List.any_eq_true, List.elem_iff]

/-- The length of the ranking recomputed on the append path: the old primary
objective column plus the hypothetically appended candidate value. -/
theorem calculateOrder_some_length (s : TPEState) (results : String → ℚ) :
    (calculateOrder s (some results)).length = (s.obs s.primaryObjective).length + 1 := by
  simp [calculateOrder, argsort_length]

theorem logaddexp_of_le (x y : ℝ) (h : x ≤ y) :
    logaddexp x y = Real.log (Real.exp x + Real.exp y) := by
  have habs : -|x - y| = x - y := by
    rw [abs_of_nonpos (sub_nonpos.mpr h), neg_neg]
  have hexp : Real.exp x + Real.exp y = Real.exp y * (1 + Real.exp (x - y)) := by
    rw [mul_add, mul_one, ← Real.exp_add, show y + (x - y) = x by ring, add_comm]
  unfold logaddexp
  rw [max_eq_right h, habs, hexp,
    Real.log_mul (Real.exp_ne_zero y)
      (by positivity : (0:ℝ) < 1 + Real.exp (x - y)).ne', Real.log_exp]

theorem logaddexp_comm (x y : ℝ) : logaddexp x y = logaddexp y x := by
  unfold logaddexp
  rw [max_comm, abs_sub_comm]

/-- The stable evaluation of `np.logaddexp` agrees with `log(exp x + exp y)`. -/
theorem logaddexp_eq (x y : ℝ) :
    logaddexp x y = Real.log (Real.exp x + Real.exp y) := by
  rcases le_total x y with h | h
  · exact logaddexp_of_le x y h
  · rw [logaddexp_comm, logaddexp_of_le y x h, add_comm]

/-- C1: for every percentile `p` and candidate log-likelihood pair
`(ll_lower = a, ll_upper = b)`, `compute_probability_improvement` returns
`-logaddexp(log(p + EPS), log(1 - p + EPS) + b - a)`, which equals
`-log(exp(log(p + EPS)) + exp(log(1 - p + EPS) + b - a))`; and the quantity
the stable `logaddexp` evaluation exponentiates is never above one, so large
`b - a` (such as 700) cannot make the computation overflow. -/
theorem probability_improvement_score_formula (p a b : ℝ) :
    probabilityImprovement p a b =
      -Real.log (Real.exp (Real.log (p + EPS)) +
        Real.exp (Real.log (1 - p + EPS) + b - a)) ∧
    Real.exp (-|Real.log (p + EPS) - (Real.log (1 - p + EPS) + b - a)|) ≤ 1 := by
  constructor
  · unfold probabilityImprovement
    rw [logaddexp_eq]
  · exact Real.exp_le_one_iff.mpr (neg_nonpos.mpr (abs_nonneg _))

/-- C2: an append call (`update_observations`) supplying a value for each
dimension, each objective, and a runtime appends exactly one value to every
dimension column, every objective column, and the runtime column of the store,
so that at the end of the call every column again has equal length. -/
theorem update_appends_one_value_per_column (s : TPEState)
    (evalConfig results : String → ℚ) (runtime : ℚ) (n : ℕ)
    (hkeys : (s.objectiveNames ++ s.hpNames ++ [s.runtimeName]).Nodup)
    (hlen : ∀ k ∈ s.objectiveNames ++ s.hpNames ++ [s.runtimeName],
      (s.obs k).length = n) :
    (∀ k ∈ s.objectiveNames,
      (updateObservations s evalConfig results runtime).obs k = s.obs k ++ [results k]) ∧
    (∀ k ∈ s.hpNames,
      (updateObservations s evalConfig results runtime).obs k = s.obs k ++ [evalConfig k]) ∧
    ((updateObservations s evalConfig results runtime).obs s.runtimeName =
      s.obs s.runtimeName ++ [runtime]) ∧
    (∀ k ∈ s.objectiveNames ++ s.hpNames ++ [s.runtimeName],
      ((updateObservations s evalConfig results runtime).obs k).length = n + 1) := by
  obtain ⟨hA, hB, hABd, hrA, hrB⟩ := keyFacts s hkeys
  have hobs := updateObservations_obs_apply s evalConfig results runtime hkeys
  have hONE : ∀ k ∈ s.objectiveNames,
      (updateObservations s evalConfig results runtime).obs k = s.obs k ++ [results k] := by
    intro k hk
    rw [hobs k, if_neg (fun (h : k = s.runtimeName) => hrA (h ▸ hk)), if_pos hk]
  have hHP : ∀ k ∈ s.hpNames,
      (updateObservations s evalConfig results runtime).obs k = s.obs k ++ [evalConfig k] := by
    intro k hk
    have hko : k ∉ s.objectiveNames := fun h => hABd h hk
    rw [hobs k, if_neg (fun (h : k = s.runtimeName) => hrB (h ▸ hk)), if_neg hko, if_pos hk]
  have hRT : (updateObservations s evalConfig results runtime).obs s.runtimeName =
      s.obs s.runtimeName ++ [runtime] := by
    rw [hobs _, if_pos rfl]
  refine ⟨hONE, hHP, hRT, ?_⟩
  intro k hk
  rcases List.mem_append.mp hk with hk' | hk'
  · rcases List.mem_append.mp hk' with h1 | h1
    · rw [hONE k h1, List.length_append, hlen k hk]
      rfl
    · rw [hHP k h1, List.length_append, hlen k hk]
      rfl
  · have hkr : k = s.runtimeName := by simpa using hk'
    rw [hkr, hRT, List.length_append, hlen s.runtimeName (by rwa [hkr] at hk)]
    rfl

theorem update_appends_one_value_per_column_witness :
    (sampleState.objectiveNames ++ sampleState.hpNames ++ [sampleState.runtimeName]).Nodup ∧
    (∀ k ∈ sampleState.objectiveNames ++ sampleState.hpNames ++ [sampleState.runtimeName],
      (sampleState.obs k).length = 0) ∧
    (∀ k ∈ sampleState.objectiveNames ++ sampleState.hpNames ++ [sampleState.runtimeName],
      ((updateObservations sampleState (fun _ => 1) (fun _ => 2) 3).obs k).length = 0 + 1) :=
  ⟨by decide, by decide,
    (update_appends_one_value_per_column sampleState (fun _ => 1) (fun _ => 2) 3 0
      (by decide) (by decide)).2.2.2⟩

/-- C5 (amended): after `update_observations`, every dimension and objective
sorted-view column equals the corresponding store column permuted by the
latest ranking and has the same length as it; the runtime sorted-view column,
however, is left unchanged rather than refreshed. -/
theorem update_sorted_view_consistency (s : TPEState)
    (evalConfig results : String → ℚ) (runtime : ℚ) (n : ℕ)
    (hkeys : (s.objectiveNames ++ s.hpNames ++ [s.runtimeName]).Nodup)
    (hobj : s.objectiveNames ≠ [])
    (hlen : ∀ k ∈ s.objectiveNames ++ s.hpNames ++ [s.runtimeName],
      (s.obs k).length = n) :
    (∀ k ∈ s.objectiveNames ++ s.hpNames,
      (updateObservations s evalConfig results runtime).sortedObs k =
        permute ((updateObservations s evalConfig results runtime).obs k)
          (calculateOrder s (some results)) ∧
      ((updateObservations s evalConfig results runtime).sortedObs k).length =
        ((updateObservations s evalConfig results runtime).obs k).length) ∧
    (updateObservations s evalConfig results runtime).sortedObs s.runtimeName =
      s.sortedObs s.runtimeName := by
  obtain ⟨hA, hB, hABd, hrA, hrB⟩ := keyFacts s hkeys
  have hobs := updateObservations_obs_apply s evalConfig results runtime hkeys
  have hsorted := updateObservations_sortedObs_apply s evalConfig results runtime hkeys
  have hmem : s.primaryObjective ∈ s.objectiveNames := headD_mem _ hobj
  have hdlen : (calculateOrder s (some results)).length = n + 1 := by
    rw [calculateOrder_some_length, hlen s.primaryObjective
      (List.mem_append_left _ (List.mem_append_left _ hmem))]
  constructor
  · intro k hk
    rcases List.mem_append.mp hk with h1 | h1
    · have heq : (updateObservations s evalConfig results runtime).obs k =
          s.obs k ++ [results k] := by
        rw [hobs k, if_neg (fun (h : k = s.runtimeName) => hrA (h ▸ h1)), if_pos h1]
      refine ⟨by rw [hsorted k, if_pos h1, heq], ?_⟩
      rw [hsorted k, if_pos h1, heq, permute_length, hdlen, List.length_append,
        hlen k (List.mem_append_left _ hk)]
      rfl
    · have hko : k ∉ s.objectiveNames := fun h => hABd h h1
      have heq : (updateObservations s evalConfig results runtime).obs k =
          s.obs k ++ [evalConfig k] := by
        rw [hobs k, if_neg (fun (h : k = s.runtimeName) => hrB (h ▸ h1)), if_neg hko, if_pos h1]
      refine ⟨by rw [hsorted k, if_neg hko, if_pos h1, heq], ?_⟩
      rw [hsorted k, if_neg hko, if_pos h1, heq, permute_length, hdlen,
        List.length_append, hlen k (List.mem_append_left _ hk)]
      rfl
  · rw [hsorted _, if_neg hrA, if_neg hrB]

theorem update_sorted_view_consistency_witness :
    (sampleState.objectiveNames ++ sampleState.hpNames ++ [sampleState.runtimeName]).Nodup ∧
    sampleState.objectiveNames ≠ [] ∧
    (∀ k ∈ sampleState.objectiveNames ++ sampleState.hpNames ++ [sampleState.runtimeName],
      (sampleState.obs k).length = 0) ∧
    (updateObservations sampleState (fun _ => 1) (fun _ => 2) 3).sortedObs
        sampleState.runtimeName =
      sampleState.sortedObs sampleState.runtimeName :=
  ⟨by decide, by decide, by decide,
    (update_sorted_view_consistency sampleState (fun _ => 1) (fun _ => 2) 3 0
      (by decide) (by decide) (by decide)).2⟩

/-- C5 counterexample: on a fresh instance (all columns empty), a single
`update_observations` call leaves the sorted-view runtime column at length 0
while the stored runtime column has length 1 — so the sorted view is not
"fully recomputed and consistent" for the runtime column, contrary to the
claim. -/
theorem update_sorted_view_counterexample :
    ((updateObservations sampleState (fun _ => 1) (fun _ => 2) 3).sortedObs "runtime").length = 0 ∧
    ((updateObservations sampleState (fun _ => 1) (fun _ => 2) 3).obs "runtime").length = 1 := by
  decide

/-- C4: after an update, the group boundary is the ceiling percentile cut of
the new observation count: `n_lower = ceil(quantile * n_observations)` with
`0 ≤ n_lower ≤ n_observations`, and `percentile = n_lower / n_observations`,
for every quantile in `[0, 1]` (the count after an append is at least 1). -/
theorem percentile_cut_after_update (s : TPEState)
    (evalConfig results : String → ℚ) (runtime : ℚ)
    (hkeys : (s.objectiveNames ++ s.hpNames ++ [s.runtimeName]).Nodup)
    (hobj : s.objectiveNames ≠ [])
    (hq0 : 0 ≤ s.quantile) (hq1 : s.quantile ≤ 1) :
    (updateObservations s evalConfig results runtime).nLower =
      ⌈s.quantile * (((s.obs s.primaryObjective).length + 1 : ℕ) : ℚ)⌉ ∧
    0 ≤ (updateObservations s evalConfig results runtime).nLower ∧
    (updateObservations s evalConfig results runtime).nLower ≤
      (((s.obs s.primaryObjective).length + 1 : ℕ) : ℤ) ∧
    (updateObservations s evalConfig results runtime).percentile =
      ((updateObservations s evalConfig results runtime).nLower : ℚ) /
        (((s.obs s.primaryObjective).length + 1 : ℕ) : ℚ) := by
  obtain ⟨h1, h2⟩ := updateObservations_split s evalConfig results runtime hkeys hobj
  have hceil : percentileFunc s.quantile ((s.obs s.primaryObjective).length + 1) =
      ⌈s.quantile * (((s.obs s.primaryObjective).length + 1 : ℕ) : ℚ)⌉ := rfl
  refine ⟨h1.trans hceil, ?_, ?_, h2⟩
  · rw [h1, hceil]
    exact Int.ceil_nonneg (mul_nonneg hq0 (by positivity))
  · rw [h1, hceil, Int.ceil_le]
    push_cast
    nlinarith [Nat.cast_nonneg (α := ℚ) ((s.obs s.primaryObjective).length + 1)]

theorem percentile_cut_after_update_witness :
    (sampleState.objectiveNames ++ sampleState.hpNames ++ [sampleState.runtimeName]).Nodup ∧
    sampleState.objectiveNames ≠ [] ∧
    (0 ≤ sampleState.quantile ∧ sampleState.quantile ≤ 1) ∧
    (0 ≤ (updateObservations sampleState (fun _ => 1) (fun _ => 2) 3).nLower ∧
     (updateObservations sampleState (fun _ => 1) (fun _ => 2) 3).nLower ≤
       (((sampleState.obs sampleState.primaryObjective).length + 1 : ℕ) : ℤ)) :=
  ⟨by decide, by decide, ⟨by decide, by decide⟩,
    ⟨(percentile_cut_after_update sampleState (fun _ => 1) (fun _ => 2) 3
        (by decide) (by decide) (by decide) (by decide)).2.1,
     (percentile_cut_after_update sampleState (fun _ => 1) (fun _ => 2) 3
        (by decide) (by decide) (by decide) (by decide)).2.2.1⟩⟩

/-- C6: a seed call (`apply_knowledge_augmentation`) fails when some objective
column already has data or some required objective is missing from the input,
and in either failure case it raises before mutating anything: the returned
state is exactly the prior state, every store and sorted-view column
included. -/
theorem augmentation_precondition_is_atomic (s : TPEState)
    (input : List (String × List ℚ))
    (h : (∃ obj ∈ s.objectiveNames, s.obs obj ≠ []) ∨
         (∃ obj ∈ s.objectiveNames, obj ∉ input.map Prod.fst)) :
    ((applyKnowledgeAugmentation s input).2 = some AugError.alreadyHasData ∨
     (applyKnowledgeAugmentation s input).2 = some AugError.missingObjective) ∧
    (applyKnowledgeAugmentation s input).1 = s := by
  unfold applyKnowledgeAugmentation
  by_cases h1 : (s.objectiveNames.any fun name => !(s.obs name).isEmpty) = true
  · rw [if_pos h1]
    exact ⟨Or.inl rfl, rfl⟩
  · rw [if_neg h1]
    have h2 : (s.objectiveNames.any fun name => !(input.map Prod.fst).contains name) = true := by
      rcases h with h | h
      · exact absurd ((any_nonempty_iff s).mpr h) h1
      · exact (any_missing_iff s input).mpr h
    rw [if_pos h2]
    exact ⟨Or.inr rfl, rfl⟩

theorem augmentation_precondition_is_atomic_witness :
    ((∃ obj ∈ seededState.objectiveNames, seededState.obs obj ≠ []) ∨
     (∃ obj ∈ seededState.objectiveNames,
        obj ∉ ([("loss", [7])] : List (String × List ℚ)).map Prod.fst)) ∧
    (((applyKnowledgeAugmentation seededState [("loss", [7])]).2 =
        some AugError.alreadyHasData ∨
      (applyKnowledgeAugmentation seededState [("loss", [7])]).2 =
        some AugError.missingObjective) ∧
     (applyKnowledgeAugmentation seededState [("loss", [7])]).1 = seededState) :=
  ⟨by decide, augmentation_precondition_is_atomic seededState [("loss", [7])] (by decide)⟩

/-- C8: computing the percentile cut with `n_observations == 0` fails by
propagating the division fault rather than returning a default: a seed call
that supplies every objective with an empty column reaches
`percentile = n_lower / n_observations` with `n_observations = 0` and errors
out instead of producing a seeded state. -/
theorem percentile_cut_zero_observations_faults (s : TPEState)
    (input : List (String × List ℚ))
    (hobj : s.objectiveNames ≠ [])
    (hnodata : ∀ obj ∈ s.objectiveNames, s.obs obj = [])
    (hcover : ∀ obj ∈ s.objectiveNames, obj ∈ input.map Prod.fst)
    (hempty : ∀ kv ∈ input, kv.2.length = 0) :
    (applyKnowledgeAugmentation s input).2 = some AugError.divisionByZero := by
  have h1 : ¬((s.objectiveNames.any fun name => !(s.obs name).isEmpty) = true) := by
    rw [any_nonempty_iff]
    push_neg
    exact hnodata
  have h2 : ¬((s.objectiveNames.any fun name =>
      !(input.map Prod.fst).contains name) = true) := by
    rw [any_missing_iff]
    push_neg
    exact hcover
  have hmem : s.primaryObjective ∈ input.map Prod.fst :=
    hcover _ (headD_mem _ hobj)
  have hlenP := foldl_update_raw_length input s.obs s.primaryObjective 0 hmem hempty
  simp only [applyKnowledgeAugmentation]
  rw [if_neg h1, if_neg h2, if_pos hlenP]

theorem percentile_cut_zero_observations_faults_witness :
    sampleState.objectiveNames ≠ [] ∧
    (∀ obj ∈ sampleState.objectiveNames, sampleState.obs obj = []) ∧
    (∀ obj ∈ sampleState.objectiveNames,
      obj ∈ ([("loss", ([] : List ℚ))].map Prod.fst)) ∧
    (∀ kv ∈ ([("loss", ([] : List ℚ))] : List (String × List ℚ)), kv.2.length = 0) ∧
    (applyKnowledgeAugmentation sampleState [("loss", [])]).2 =
      some AugError.divisionByZero :=
  ⟨by decide, by decide, by decide, by decide,
    percentile_cut_zero_observations_faults sampleState [("loss", [])]
      (by decide) (by decide) (by decide) (by decide)⟩

/-- C10 counterexample: on a fresh store, a seed input that contains every
required objective (`loss`, supplied with an empty column) still raises — the
division fault — although no objective column has data and no objective is
missing from the input, refuting the claimed "raises if and only if". -/
theorem augmentation_error_iff_counterexample :
    (applyKnowledgeAugmentation sampleState [("loss", [])]).2 =
      some AugError.divisionByZero ∧
    sampleState.objectiveNames = ["loss"] ∧
    sampleState.obs "loss" = [] ∧
    "loss" ∈ ([("loss", ([] : List ℚ))].map Prod.fst) := by
  decide

/-- C10 (amended): with all input columns of one common length `n`,
`apply_knowledge_augmentation` raises an error iff some objective column
already has data, or some required objective is missing from the input, or
`n = 0` (the division fault on an empty seed); when it succeeds, an input that
omits one or more dimension columns is accepted: the omitted columns (store
and sorted view alike) are left unchanged, while every objective column is
populated with its `n` supplied values. -/
theorem augmentation_error_characterization (s : TPEState)
    (input : List (String × List ℚ)) (n : ℕ)
    (hobj : s.objectiveNames ≠ [])
    (hlen : ∀ kv ∈ input, kv.2.length = n) :
    ((applyKnowledgeAugmentation s input).2 ≠ none ↔
      ((∃ obj ∈ s.objectiveNames, s.obs obj ≠ []) ∨
       (∃ obj ∈ s.objectiveNames, obj ∉ input.map Prod.fst) ∨ n = 0)) ∧
    ((applyKnowledgeAugmentation s input).2 = none →
      (∀ k, k ∉ input.map Prod.fst →
        (applyKnowledgeAugmentation s input).1.obs k = s.obs k ∧
        (applyKnowledgeAugmentation s input).1.sortedObs k = s.sortedObs k) ∧
      (∀ obj ∈ s.objectiveNames,
        ((applyKnowledgeAugmentation s input).1.obs obj).length = n)) := by
  by_cases h1 : (s.objectiveNames.any fun name => !(s.obs name).isEmpty) = true
  · have he : (applyKnowledgeAugmentation s input).2 = some AugError.alreadyHasData := by
      unfold applyKnowledgeAugmentation
      rw [if_pos h1]
    refine ⟨?_, fun hnone => absurd (he ▸ hnone) (by simp)⟩
    rw [he]
    exact ⟨fun _ => Or.inl ((any_nonempty_iff s).mp h1), fun _ => by simp⟩
  · by_cases h2 : (s.objectiveNames.any fun name =>
        !(input.map Prod.fst).contains name) = true
    · have he : (applyKnowledgeAugmentation s input).2 = some AugError.missingObjective := by
        unfold applyKnowledgeAugmentation
        rw [if_neg h1, if_pos h2]
      refine ⟨?_, fun hnone => absurd (he ▸ hnone) (by simp)⟩
      rw [he]
      exact ⟨fun _ => Or.inr (Or.inl ((any_missing_iff s input).mp h2)), fun _ => by simp⟩
    · have hcover : ∀ obj ∈ s.objectiveNames, obj ∈ input.map Prod.fst := by
        rw [any_missing_iff] at h2
        push_neg at h2
        exact h2
      have hmem : s.primaryObjective ∈ input.map Prod.fst :=
        hcover _ (headD_mem _ hobj)
      have hlenP := foldl_update_raw_length input s.obs s.primaryObjective n hmem hlen
      by_cases hn : n = 0
      · have he : (applyKnowledgeAugmentation s input).2 = some AugError.divisionByZero := by
          simp only [applyKnowledgeAugmentation]
          rw [if_neg h1, if_neg h2, if_pos (by rw [hlenP, hn])]
        refine ⟨?_, fun hnone => absurd (he ▸ hnone) (by simp)⟩
        rw [he]
        exact ⟨fun _ => Or.inr (Or.inr hn), fun _ => by simp⟩
      · have he : (applyKnowledgeAugmentation s input).2 = none := by
          simp only [applyKnowledgeAugmentation]
          rw [if_neg h1, if_neg h2, if_neg (fun h => hn (hlenP ▸ h))]
        constructor
        · rw [he]
          refine ⟨fun h => absurd rfl h, fun hR => ?_⟩
          rcases hR with hR | hR | hR
          · exact absurd ((any_nonempty_iff s).mpr hR) h1
          · exact absurd ((any_missing_iff s input).mpr hR) h2
          · exact absurd hR hn
        · intro _
          refine ⟨fun k hk => ⟨?_, ?_⟩, fun obj hobjm => ?_⟩
          · simp only [applyKnowledgeAugmentation]
            rw [if_neg h1, if_neg h2, if_neg (fun h => hn (hlenP ▸ h))]
            exact foldl_update_raw_not_mem input s.obs k hk
          · simp only [applyKnowledgeAugmentation]
            rw [if_neg h1, if_neg h2, if_neg (fun h => hn (hlenP ▸ h))]
            exact foldl_update_perm_not_mem _ input s.sortedObs k hk
          · simp only [applyKnowledgeAugmentation]
            rw [if_neg h1, if_neg h2, if_neg (fun h => hn (hlenP ▸ h))]
            exact foldl_update_raw_length input s.obs obj n (hcover obj hobjm) hlen

theorem augmentation_error_characterization_witness :
    sampleState.objectiveNames ≠ [] ∧
    (∀ kv ∈ ([("loss", [5, 3])] : List (String × List ℚ)), kv.2.length = 2) ∧
    ((applyKnowledgeAugmentation sampleState [("loss", [5, 3])]).2 ≠ none ↔
      ((∃ obj ∈ sampleState.objectiveNames, sampleState.obs obj ≠ []) ∨
       (∃ obj ∈ sampleState.objectiveNames,
          obj ∉ ([("loss", [5, 3])] : List (String × List ℚ)).map Prod.fst) ∨
       (2 : ℕ) = 0)) :=
  ⟨by decide, by decide,
    (augmentation_error_characterization sampleState [("loss", [5, 3])] 2
      (by decide) (by decide)).1⟩

/-- C7: on every rebuild, the dispatcher splits each dimension's sorted values
at `n_lower` into `lower_vals = sorted[:n_lower]` and
`upper_vals = sorted[n_lower:]` (the two groups concatenate back to the whole
column, and a zero cut passes the empty lower group through unchanged) and
invokes the collaborator once per group: categorical mode passes the raw value
arrays and `top`; numerical/ordinal mode passes the raw value arrays, the
dimension (with its domain), the ordinal flag and the minimum-bandwidth
floor. -/
theorem parzen_dispatch_split (s : TPEState) (hp : String) (hhp : hp ∈ s.hpNames) :
    ((hp, (getParzenEstimator s (pySliceTo (s.sortedObs hp) s.nLower)
        (pySliceFrom (s.sortedObs hp) s.nLower) hp (s.isCategoricals hp)).1) ∈
      (updateParzenEstimators s).1 ∧
     (hp, (getParzenEstimator s (pySliceTo (s.sortedObs hp) s.nLower)
        (pySliceFrom (s.sortedObs hp) s.nLower) hp (s.isCategoricals hp)).2) ∈
      (updateParzenEstimators s).2) ∧
    pySliceTo (s.sortedObs hp) s.nLower ++ pySliceFrom (s.sortedObs hp) s.nLower =
      s.sortedObs hp ∧
    (s.nLower = 0 → pySliceTo (s.sortedObs hp) s.nLower = []) ∧
    (s.isCategoricals hp = true →
      getParzenEstimator s (pySliceTo (s.sortedObs hp) s.nLower)
          (pySliceFrom (s.sortedObs hp) s.nLower) hp (s.isCategoricals hp) =
        (ParzenCall.categorical (pySliceTo (s.sortedObs hp) s.nLower) hp s.top,
         ParzenCall.categorical (pySliceFrom (s.sortedObs hp) s.nLower) hp s.top)) ∧
    (s.isCategoricals hp = false →
      getParzenEstimator s (pySliceTo (s.sortedObs hp) s.nLower)
          (pySliceFrom (s.sortedObs hp) s.nLower) hp (s.isCategoricals hp) =
        (ParzenCall.numerical (pySliceTo (s.sortedObs hp) s.nLower) hp
           (s.isOrdinals hp) s.minBandwidthFactor,
         ParzenCall.numerical (pySliceFrom (s.sortedObs hp) s.nLower) hp
           (s.isOrdinals hp) s.minBandwidthFactor)) := by
  refine ⟨⟨?_, ?_⟩, ?_, ?_, ?_, ?_⟩
  · simp only [updateParzenEstimators, List.map_map]
    exact List.mem_map_of_mem _ hhp
  · simp only [updateParzenEstimators, List.map_map]
    exact List.mem_map_of_mem _ hhp
  · unfold pySliceTo pySliceFrom
    exact List.take_append_drop _ _
  · intro h0
    simp [pySliceTo, h0]
  · intro hc
    simp [getParzenEstimator, hc]
  · intro hc
    simp [getParzenEstimator, hc]

theorem parzen_dispatch_split_witness :
    "x" ∈ sampleState.hpNames ∧
    pySliceTo (sampleState.sortedObs "x") sampleState.nLower ++
      pySliceFrom (sampleState.sortedObs "x") sampleState.nLower =
      sampleState.sortedObs "x" :=
  ⟨by decide, (parzen_dispatch_split sampleState "x" (by decide)).2.1⟩

/-- C9: two optimizer instances constructed with the same parameters and the
same seed that replay the same driver-call sequence against the same
collaborator produce identical final states and identical candidate batches
and improvement scores: all randomness is drawn from the single per-instance
seeded generator threaded through the replay. -/
theorem seeded_replay_deterministic (c : Collaborator) (hpNames : List String)
    (objectiveName runtimeName : String) (quantile : ℚ) (nEiCandidates : ℕ)
    (minBandwidthFactor top : ℚ) (isCategoricals isOrdinals : String → Bool)
    (seed : ℕ) (s₁ s₂ : TPEState) (ops₁ ops₂ : List Op)
    (h₁ : s₁ = TPEState.init hpNames objectiveName runtimeName quantile
      nEiCandidates minBandwidthFactor top isCategoricals isOrdinals seed)
    (h₂ : s₂ = TPEState.init hpNames objectiveName runtimeName quantile
      nEiCandidates minBandwidthFactor top isCategoricals isOrdinals seed)
    (hops : ops₁ = ops₂) :
    runOps c s₁ ops₁ = runOps c s₂ ops₂ := by
  subst h₁
  subst h₂
  subst hops
  rfl

theorem seeded_replay_deterministic_witness :
    sampleState = TPEState.init ["x"] "loss" "runtime" ⟨1, 10, by decide, by decide⟩ 5
      ⟨1, 100, by decide, by decide⟩ ⟨4, 5, by decide, by decide⟩
      (fun _ => false) (fun _ => false) 0 ∧
    runOps trivialCollaborator sampleState [Op.candidates] =
      runOps trivialCollaborator sampleState [Op.candidates] :=
  ⟨rfl, seeded_replay_deterministic trivialCollaborator ["x"] "loss" "runtime"
    ⟨1, 10, by decide, by decide⟩ 5 ⟨1, 100, by decide, by decide⟩
    ⟨4, 5, by decide, by decide⟩ (fun _ => false) (fun _ => false) 0
    sampleState sampleState [Op.candidates] [Op.candidates] rfl rfl rfl⟩

end MetaLearnTPE
